import Mathlib

/-!
Verification of the silinapse core: packed symmetric matrix and Boltzmann machine

Shallow embedding of `src/linalg/symmetric.rs` and `src/boltzmann.rs`.

Modelling conventions:
* Rust `Vec<F>` becomes `List`; an indexing operation that panics when the
  offset is out of bounds becomes an `Option`-returning access.
* The generic float parameter `F: Float` becomes a `LinearOrderedField`;
  the floating-point exponential `Float::exp` is an explicit function
  parameter `fexp` of the update operations, instantiated with `Real.exp`
  where the exact acceptance formula matters.
* The global random sources (`random::<F>()` producing uniform samples in
  [0,1) and `Range::ind_sample` producing uniform indices in [0,n)) become
  explicit argument streams: a function `us : ℕ → F` of per-iteration
  uniform samples, and a list `proposals` of drawn indices for the
  rejection-sampling loop.  A `tick_one_random` call that would panic
  (empty range) or whose rejection loop does not accept any of the supplied
  draws yields `none`.
-/

/-! ## Packed symmetric matrix (`src/linalg/symmetric.rs`) -/

/-- Structure `SymmetricMatrix` from `symmetric.rs`: side length `size` and the flat
packed storage `values` (`Vec<F>` of the lower triangle). -/
structure SymmetricMatrix (α : Type) where
  size : ℕ
  values : List α
  deriving DecidableEq, Repr

/-- Function `order_tuple` of `symmetric.rs`:
`if t.0 < t.1 { t } else { (t.1, t.0) }`. -/
def order_tuple (t : ℕ × ℕ) : ℕ × ℕ :=
  if t.1 < t.2 then t else (t.2, t.1)

/-- The linear storage offset computed by both `Index::index` and
`IndexMut::index_mut`: order the pair, then `k = j*(j+1)/2 + i`. -/
def triOffset (t : ℕ × ℕ) : ℕ :=
  let p := order_tuple t
  p.2 * (p.2 + 1) / 2 + p.1

/-- Reading `Index::index` for `SymmetricMatrix`: `&self.values[k]` with
`k = j*(j+1)/2 + i` on the ordered pair.  The Rust `Vec` indexing panics
when `k` is out of bounds, modelled by `none`. -/
def SymmetricMatrix.get (m : SymmetricMatrix α) (t : ℕ × ℕ) : Option α :=
  m.values[triOffset t]?

/-- Writing: `IndexMut::index_mut` followed by a store: writes `x` into the single
storage slot of the ordered pair.  Panics (`none`) when the offset is out
of bounds, exactly as `&mut self.values[k]` does. -/
def SymmetricMatrix.set (m : SymmetricMatrix α) (t : ℕ × ℕ) (x : α) :
    Option (SymmetricMatrix α) :=
  if triOffset t < m.values.length then
    some { m with values := m.values.set (triOffset t) x }
  else none

/-- Constructor `SymmetricMatrix::zeros(n)`: `coeffs = n*(n+1)/2`, storage
`vec![zero(); coeffs]`. -/
def SymmetricMatrix.zeros (α : Type) [Zero α] (n : ℕ) : SymmetricMatrix α :=
  { size := n, values := List.replicate (n * (n + 1) / 2) 0 }

/-- The `usize` semantics of the size computation `n*(n+1)/2` in
`SymmetricMatrix::zeros`: in Rust the multiplication `n*(n+1)` is performed
in the machine integer width and construction fails (overflow panic) when
it exceeds it; otherwise the zero-filled matrix is produced.  Modelled with
the 64-bit width. -/
def SymmetricMatrix.zerosChecked (α : Type) [Zero α] (n : ℕ) :
    Option (SymmetricMatrix α) :=
  if n * (n + 1) < 2 ^ 64 then some (SymmetricMatrix.zeros α n) else none

/-- Accessor `SymmetricMatrix::size`. -/
def SymmetricMatrix.sizeOf (m : SymmetricMatrix α) : ℕ := m.size

example : (SymmetricMatrix.zeros ℚ 3).values.length = 6 := by decide
example : (SymmetricMatrix.zeros ℚ 3).get (1, 2) = some 0 := by decide
example : (SymmetricMatrix.zeros ℚ 3).get (3, 0) = none := by decide
example :
    ((SymmetricMatrix.zeros ℚ 3).set (1, 2) 5).map
      (fun m => m.get (2, 1)) = some (some 5) := by decide

/-! ## Boltzmann machine (`src/boltzmann.rs`) -/

/-- Structure `BoltzmannMachine` from `boltzmann.rs`: per-unit `values`, per-unit
`biases`, and the packed symmetric coupling matrix `coeffs`. -/
structure BoltzmannMachine (F : Type) where
  values : List F
  biases : List F
  coeffs : SymmetricMatrix F
  deriving DecidableEq, Repr

/-- Constructor `BoltzmannMachine::new(coeffs)`: `n = coeffs.size()`, values
`vec![one(); n]`, biases `vec![zero(); n]`. -/
def BoltzmannMachine.new [Zero F] [One F] (coeffs : SymmetricMatrix F) :
    BoltzmannMachine F :=
  { values := List.replicate coeffs.size 1
    biases := List.replicate coeffs.size 0
    coeffs := coeffs }

/-- Constructor `BoltzmannMachine::with_biases(coeffs, biases)`: asserts
`biases.len() == coeffs.size()` (panic modelled by `none`), then builds the
machine with values `vec![one(); n]`. -/
def BoltzmannMachine.with_biases [Zero F] [One F] (coeffs : SymmetricMatrix F)
    (biases : List F) : Option (BoltzmannMachine F) :=
  if biases.length = coeffs.size then
    some { values := List.replicate coeffs.size 1
           biases := biases
           coeffs := coeffs }
  else none

variable {F : Type} [LinearOrderedField F]

/-- The local-field accumulation loop shared by both tick operations:
`let mut val = self.biases[i]; for j in 0..n { if i!=j { val = val +
self.values[j] * self.coeffs[(i,j)]; } }`.  The in-bounds accesses
`biases[i]`, `values[j]` and `coeffs[(i,j)]` are rendered with default `0`;
whenever the machine is well formed and `i < n` they are all in range. -/
def localField (m : BoltzmannMachine F) (n : ℕ) (i : ℕ) : F :=
  (List.range n).foldl
    (fun val j =>
      if i ≠ j then val + m.values.getD j 0 * (m.coeffs.get (i, j)).getD 0
      else val)
    (m.biases.getD i 0)

/-- The stochastic acceptance tail shared by both tick operations:
`val = -val / temperature; if random::<F>() < (one + val.exp()).recip()
{ one } else { zero }`, with the drawn uniform sample `u` and the float
exponential `fexp` explicit. -/
def acceptStep (fexp : F → F) (temperature u field : F) : F :=
  let val := -field / temperature
  if u < (1 + fexp val)⁻¹ then 1 else 0

/-- One iteration of the `tick_all_sequential` outer loop: unit `i` is
re-sampled from its local field in the current state. -/
def tickStep (fexp : F → F) (temperature : F) (us : ℕ → F) (n : ℕ)
    (s : BoltzmannMachine F) (i : ℕ) : BoltzmannMachine F :=
  { s with
    values := s.values.set i
      (acceptStep fexp temperature (us i) (localField s n i)) }

/-- Operation `BoltzmannMachine::tick_all_sequential(temperature)`:
`let n = self.values.len(); for i in 0..n { ... }`, each iteration drawing
one uniform sample (`us i`) and overwriting `self.values[i]`. -/
def tick_all_sequential (fexp : F → F) (temperature : F) (us : ℕ → F)
    (m : BoltzmannMachine F) : BoltzmannMachine F :=
  let n := m.values.length
  (List.range n).foldl (tickStep fexp temperature us n) m

/-- The rejection-sampling loop of `tick_one_random`:
`let mut idx = limits.ind_sample(&mut rng); while avoid.contains(&idx)
{ idx = limits.ind_sample(&mut rng); }` — returns the first drawn index not
in `avoid`, or `none` when none of the supplied draws is accepted (the Rust
loop would still be running after consuming all of them). -/
def pickIndex (avoid : List ℕ) : List ℕ → Option ℕ
  | [] => none
  | p :: ps => if p ∈ avoid then pickIndex avoid ps else some p

/-- Operation `BoltzmannMachine::tick_one_random(temperature, avoid)`:
`let n = self.biases.len(); let limits = Range::<usize>::new(0, n); ...`.
`Range::new(0, 0)` panics (`none` when `n = 0`); otherwise the rejection
loop consumes draws from `proposals` and the accepted unit is re-sampled
with the uniform sample `u`. -/
def tick_one_random (fexp : F → F) (temperature : F) (u : F)
    (avoid : List ℕ) (proposals : List ℕ) (m : BoltzmannMachine F) :
    Option (BoltzmannMachine F) :=
  let n := m.biases.length
  if n = 0 then none
  else
    match pickIndex avoid proposals with
    | none => none
    | some idx =>
        some { m with
          values := m.values.set idx
            (acceptStep fexp temperature u (localField m n idx)) }

/-- A sequence of `tick_one_random` calls with the same temperature and
exclusion list, each with its own uniform sample and index draws. -/
def tick_one_iter (fexp : F → F) (temperature : F) (avoid : List ℕ) :
    List (F × List ℕ) → BoltzmannMachine F → Option (BoltzmannMachine F)
  | [], m => some m
  | (u, ps) :: rest, m =>
      match tick_one_random fexp temperature u avoid ps m with
      | none => none
      | some m2 => tick_one_iter fexp temperature avoid rest m2

example :
    (BoltzmannMachine.new (SymmetricMatrix.zeros ℚ 2)).values = [1, 1] := by
  decide

example :
    tick_one_random (fun x => x) 1 (1/2) [0] [0, 0, 1]
      (BoltzmannMachine.new (SymmetricMatrix.zeros ℚ 2)) =
    some { values := [1, 1], biases := [0, 0],
           coeffs := SymmetricMatrix.zeros ℚ 2 } := by
  norm_num [tick_one_random, pickIndex, localField, acceptStep,
    BoltzmannMachine.new, SymmetricMatrix.zeros, SymmetricMatrix.get,
    triOffset, order_tuple, List.range_succ, List.replicate, List.set]

example :
    (tick_all_sequential (fun x => x) 1 (fun k => (1 : ℚ)/2 + k)
      (BoltzmannMachine.new (SymmetricMatrix.zeros ℚ 2))).values = [1, 0] := by
  norm_num [tick_all_sequential, tickStep, localField, acceptStep,
    BoltzmannMachine.new, SymmetricMatrix.zeros, SymmetricMatrix.get,
    triOffset, order_tuple, List.range_succ, List.replicate, List.set]

/-! ## Auxiliary definitions for the statements -/

/-- The triangular number `n*(n+1)/2`: number of packed storage slots of a
side-`n` symmetric matrix, and the offset of the start of triangular row
`n`. -/
def tri (n : ℕ) : ℕ := n * (n + 1) / 2

/-- Inverse of the triangular storage mapping: `unrank k` walks the packed
slots in order, producing the normalized coordinate pair of slot `k`. -/
def unrank : ℕ → ℕ × ℕ
  | 0 => (0, 0)
  | k + 1 =>
    let p := unrank k
    if p.1 = p.2 then (0, p.2 + 1) else (p.1 + 1, p.2)

/-- The machine state after the first `k` iterations of the
`tick_all_sequential` outer loop. -/
def tickSweep (fexp : F → F) (temperature : F) (us : ℕ → F) (n : ℕ)
    (m : BoltzmannMachine F) (k : ℕ) : BoltzmannMachine F :=
  (List.range k).foldl (tickStep fexp temperature us n) m

/-- The acceptance rule exactly as claim C1 words it: probability
`p = 1 / (1 + exp(field_i / T))`, set the unit to `1` when `u < p` and to
`0` otherwise.  Stated from the claim, to be compared against the
`acceptStep` of the code. -/
def claimAcceptStep (fexp : F → F) (temperature u field : F) : F :=
  if u < (1 + fexp (field / temperature))⁻¹ then 1 else 0

/-- A concrete one-unit machine over `ℝ` with bias `1`: values `[0]`,
biases `[1]`, couplings the `1 × 1` zero matrix. -/
def oneUnitMachine : BoltzmannMachine ℝ :=
  { values := [0], biases := [1], coeffs := SymmetricMatrix.zeros ℝ 1 }

/-! ## Triangular-offset arithmetic -/

lemma two_mul_tri (n : ℕ) : 2 * tri n = n * (n + 1) := by
  have h : 2 ∣ n * (n + 1) := (Nat.even_mul_succ_self n).two_dvd
  unfold tri
  omega

lemma tri_succ (n : ℕ) : tri (n + 1) = tri n + (n + 1) := by
  have h1 := two_mul_tri n
  have h2 := two_mul_tri (n + 1)
  have h3 : (n + 1) * (n + 1 + 1) = n * (n + 1) + 2 * (n + 1) := by ring
  omega

lemma tri_mono : Monotone tri := by
  apply monotone_nat_of_le_succ
  intro n
  rw [tri_succ]
  omega

lemma tri_add_lt_tri {i j n : ℕ} (hij : i ≤ j) (hjn : j < n) :
    tri j + i < tri n := by
  have h1 : tri j + i < tri (j + 1) := by
    rw [tri_succ]; omega
  exact lt_of_lt_of_le h1 (tri_mono hjn)

lemma tri_le_tri_add {n j i : ℕ} (hnj : n ≤ j) : tri n ≤ tri j + i :=
  le_trans (tri_mono hnj) (Nat.le_add_right _ _)

lemma tri_add_inj {i j k l : ℕ} (hij : i ≤ j) (hkl : k ≤ l)
    (h : tri j + i = tri l + k) : i = k ∧ j = l := by
  have hjl : j = l := by
    rcases Nat.lt_trichotomy j l with hlt | heq | hgt
    · exfalso
      have h1 : tri j + i < tri l := by
        have := tri_mono (Nat.succ_le_of_lt hlt)
        rw [tri_succ] at this
        omega
      omega
    · exact heq
    · exfalso
      have h1 : tri l + k < tri j := by
        have := tri_mono (Nat.succ_le_of_lt hgt)
        rw [tri_succ] at this
        omega
      omega
  subst hjl
  omega

lemma unrank_spec (k : ℕ) :
    (unrank k).1 ≤ (unrank k).2 ∧ tri (unrank k).2 + (unrank k).1 = k := by
  induction k with
  | zero => simp [unrank, tri]
  | succ k ih =>
    obtain ⟨h1, h2⟩ := ih
    by_cases h : (unrank k).1 = (unrank k).2
    · have hu : unrank (k + 1) = (0, (unrank k).2 + 1) := by
        simp [unrank, h]
      rw [hu]
      refine ⟨Nat.zero_le _, ?_⟩
      simp only
      rw [tri_succ]
      omega
    · have hu : unrank (k + 1) = ((unrank k).1 + 1, (unrank k).2) := by
        simp [unrank, h]
      rw [hu]
      refine ⟨?_, ?_⟩
      · simp only
        omega
      · simp only
        omega

/-! ## Normalization lemmas for the packed indexing -/

lemma order_tuple_fst_le_snd (t : ℕ × ℕ) :
    (order_tuple t).1 ≤ (order_tuple t).2 := by
  unfold order_tuple
  split
  · omega
  · show t.2 ≤ t.1
    omega

lemma order_tuple_comm (i j : ℕ) : order_tuple (i, j) = order_tuple (j, i) := by
  unfold order_tuple
  by_cases h : i < j
  · have h2 : ¬ j < i := by omega
    simp [h, h2]
  · by_cases h3 : j < i
    · simp [h, h3]
    · have h4 : i = j := by omega
      subst h4
      simp

lemma order_tuple_of_le {i j : ℕ} (h : i ≤ j) : order_tuple (i, j) = (i, j) := by
  unfold order_tuple
  rcases Nat.lt_or_ge i j with h1 | h1
  · simp [h1]
  · have : i = j := le_antisymm h h1
    subst this
    simp

lemma triOffset_comm (i j : ℕ) : triOffset (i, j) = triOffset (j, i) := by
  unfold triOffset
  rw [order_tuple_comm]

lemma triOffset_of_le {i j : ℕ} (h : i ≤ j) :
    triOffset (i, j) = j * (j + 1) / 2 + i := by
  unfold triOffset
  rw [order_tuple_of_le h]

lemma triOffset_eq_tri {i j : ℕ} (h : i ≤ j) :
    triOffset (i, j) = tri j + i := triOffset_of_le h

lemma triOffset_lt_tri {i j n : ℕ} (hi : i < n) (hj : j < n) :
    triOffset (i, j) < tri n := by
  have h1 := order_tuple_fst_le_snd (i, j)
  have h2 : (order_tuple (i, j)).2 < n := by
    unfold order_tuple
    split <;> simpa
  calc triOffset (i, j) = tri (order_tuple (i, j)).2 + (order_tuple (i, j)).1 := by
        unfold triOffset tri
        rfl
    _ < tri n := tri_add_lt_tri h1 h2

lemma tri_le_triOffset {i j n : ℕ} (h : n ≤ i ∨ n ≤ j) :
    tri n ≤ triOffset (i, j) := by
  have h2 : n ≤ (order_tuple (i, j)).2 := by
    unfold order_tuple
    split <;> simp <;> omega
  calc tri n ≤ tri (order_tuple (i, j)).2 + (order_tuple (i, j)).1 :=
        tri_le_tri_add h2
    _ = triOffset (i, j) := by
        unfold triOffset tri
        rfl

lemma zeros_values_length (α : Type) [Zero α] (n : ℕ) :
    (SymmetricMatrix.zeros α n).values.length = tri n := by
  simp [SymmetricMatrix.zeros, tri]

lemma getElem?_isSome_iff (l : List α) (i : ℕ) : l[i]?.isSome ↔ i < l.length := by
  rcases Nat.lt_or_ge i l.length with h | h
  · rw [List.getElem?_eq_getElem h]
    simpa using h
  · rw [List.getElem?_eq_none h]
    simpa using Nat.not_lt.mpr h

/-! ## Claims about the packed symmetric matrix -/

/-- C3: for every packed symmetric matrix and all valid indices
`i, j < n`, `get (i, j) == get (j, i)` after any sequence of `set` calls
(both orderings address the same storage slot), and a write through
`(i, j)` is observable through `(j, i)`. -/
theorem C3_symmetry (α : Type) :
    (∀ (m : SymmetricMatrix α) (i j : ℕ), m.get (i, j) = m.get (j, i)) ∧
    (∀ i j : ℕ, triOffset (i, j) = triOffset (j, i)) ∧
    (∀ (m m2 : SymmetricMatrix α) (i j : ℕ) (x : α),
      m.set (i, j) x = some m2 → m2.get (j, i) = some x) := by
  refine ⟨?_, ?_, ?_⟩
  · intro m i j
    unfold SymmetricMatrix.get
    rw [triOffset_comm]
  · intro i j
    exact triOffset_comm i j
  · intro m m2 i j x h
    unfold SymmetricMatrix.set at h
    by_cases hk : triOffset (i, j) < m.values.length
    · rw [if_pos hk] at h
      cases h
      unfold SymmetricMatrix.get
      simp only [triOffset_comm j i]
      rw [List.getElem?_set_self]
      · simpa using hk
    · rw [if_neg hk] at h
      cases h

/-- C3 witness: writing `7` through `(0, 1)` into the `2 × 2` zero matrix
is read back through `(1, 0)`. -/
theorem C3_symmetry_witness :
    SymmetricMatrix.get { size := 2, values := ([0, 7, 0] : List ℚ) } (1, 0) =
      some 7 :=
  (C3_symmetry ℚ).2.2 (SymmetricMatrix.zeros ℚ 2) _ 0 1 7 (by decide)

/-- C4: the storage mapping sends the normalized pair `(i, j)` with
`i ≤ j` to offset `j*(j+1)/2 + i`, and for side `n` this is a bijection
between normalized coordinate pairs with both indices below `n` and the
offsets `0 .. n*(n+1)/2 - 1`. -/
theorem C4_offset_bijection (n : ℕ) :
    (∀ i j : ℕ, i ≤ j → triOffset (i, j) = j * (j + 1) / 2 + i) ∧
    (∀ i j : ℕ, i ≤ j → j < n → triOffset (i, j) < n * (n + 1) / 2) ∧
    (∀ i j k l : ℕ, i ≤ j → k ≤ l → j < n → l < n →
      triOffset (i, j) = triOffset (k, l) → i = k ∧ j = l) ∧
    (∀ k : ℕ, k < n * (n + 1) / 2 →
      ∃ i j : ℕ, i ≤ j ∧ j < n ∧ triOffset (i, j) = k) := by
  refine ⟨?_, ?_, ?_, ?_⟩
  · intro i j hij
    exact triOffset_of_le hij
  · intro i j hij hjn
    rw [triOffset_eq_tri hij]
    exact tri_add_lt_tri hij hjn
  · intro i j k l hij hkl hjn hln h
    rw [triOffset_eq_tri hij, triOffset_eq_tri hkl] at h
    exact tri_add_inj hij hkl h
  · intro k hk
    obtain ⟨h1, h2⟩ := unrank_spec k
    refine ⟨(unrank k).1, (unrank k).2, h1, ?_, ?_⟩
    · by_contra hn
      have h3 : tri n ≤ tri (unrank k).2 + (unrank k).1 :=
        tri_le_tri_add (Nat.le_of_not_lt hn)
      rw [h2] at h3
      exact Nat.not_lt.mpr h3 hk
    · rw [triOffset_eq_tri h1]
      exact h2

/-- C4 witness: for `n = 3` the normalized pair `(1, 2)` maps to offset
`2*(2+1)/2 + 1 = 4`, inside the `6`-slot storage. -/
theorem C4_offset_bijection_witness :
    triOffset (1, 2) = 2 * (2 + 1) / 2 + 1 ∧
    triOffset (1, 2) < 3 * (3 + 1) / 2 ∧
    (1 : ℕ) = 1 ∧ (2 : ℕ) = 2 :=
  ⟨(C4_offset_bijection 3).1 1 2 (by decide),
   (C4_offset_bijection 3).2.1 1 2 (by decide) (by decide),
   ((C4_offset_bijection 3).2.2.1 1 2 1 2 (by decide) (by decide) (by decide)
     (by decide) rfl).1,
   ((C4_offset_bijection 3).2.2.1 1 2 1 2 (by decide) (by decide) (by decide)
     (by decide) rfl).2⟩

/-- C8: on a side-`n` matrix with its packed `n*(n+1)/2`-slot storage,
`get (i, j)` succeeds exactly when `i < n` and `j < n`; when either index
is at least `n` the computed triangular offset falls outside the storage
and indexing fails. -/
theorem C8_get_in_bounds (α : Type) (n i j : ℕ) (m : SymmetricMatrix α)
    (hsz : m.size = n) (hm : m.values.length = n * (n + 1) / 2) :
    ((m.get (i, j)).isSome ↔ (i < n ∧ j < n)) ∧
    (n ≤ i ∨ n ≤ j → n * (n + 1) / 2 ≤ triOffset (i, j) ∧ m.get (i, j) = none) := by
  have hlen : m.values.length = tri n := hm
  constructor
  · rw [SymmetricMatrix.get, getElem?_isSome_iff, hlen]
    constructor
    · intro h
      by_contra hc
      have h2 : n ≤ i ∨ n ≤ j := by omega
      exact Nat.not_lt.mpr (tri_le_triOffset h2) h
    · intro h
      exact triOffset_lt_tri h.1 h.2
  · intro h
    have h2 : tri n ≤ triOffset (i, j) := tri_le_triOffset h
    refine ⟨h2, ?_⟩
    rw [SymmetricMatrix.get]
    apply List.getElem?_eq_none
    rw [hlen]
    exact h2

/-- C8 witness: on the `2 × 2` zero matrix, `get (1, 0)` succeeds and
`get (2, 0)` fails out of bounds. -/
theorem C8_get_in_bounds_witness :
    (((SymmetricMatrix.zeros ℚ 2).get (1, 0)).isSome ↔ (1 < 2 ∧ 0 < 2)) ∧
    ((SymmetricMatrix.zeros ℚ 2).get (2, 0) = none) :=
  ⟨(C8_get_in_bounds ℚ 2 1 0 (SymmetricMatrix.zeros ℚ 2) rfl (by decide)).1,
   ((C8_get_in_bounds ℚ 2 2 0 (SymmetricMatrix.zeros ℚ 2) rfl (by decide)).2
     (Or.inl (by decide))).2⟩

/-- C9: `zeros n` produces exactly `n*(n+1)/2` coefficient slots, every
in-range coefficient reads as `0`, and the checked (machine-width)
construction fails exactly when the packed-size computation overflows the
64-bit index width. -/
theorem C9_zeros (α : Type) [Zero α] (n : ℕ) :
    ((SymmetricMatrix.zeros α n).values.length = n * (n + 1) / 2) ∧
    (∀ i j : ℕ, i < n → j < n →
      (SymmetricMatrix.zeros α n).get (i, j) = some 0) ∧
    ((SymmetricMatrix.zerosChecked α n).isSome ↔ n * (n + 1) < 2 ^ 64) ∧
    (∀ m : SymmetricMatrix α, SymmetricMatrix.zerosChecked α n = some m →
      m = SymmetricMatrix.zeros α n) := by
  refine ⟨?_, ?_, ?_, ?_⟩
  · simp [SymmetricMatrix.zeros]
  · intro i j hi hj
    have hk : triOffset (i, j) < n * (n + 1) / 2 := triOffset_lt_tri hi hj
    rw [SymmetricMatrix.get, SymmetricMatrix.zeros]
    simp only [List.getElem?_replicate]
    rw [if_pos hk]
  · unfold SymmetricMatrix.zerosChecked
    by_cases h : n * (n + 1) < 2 ^ 64 <;> simp [h]
  · intro m h
    unfold SymmetricMatrix.zerosChecked at h
    by_cases hc : n * (n + 1) < 2 ^ 64
    · rw [if_pos hc] at h
      cases h
      rfl
    · rw [if_neg hc] at h
      cases h

/-- C9 witness: side 3 gives 6 slots, `get (0, 2)` reads `0`, and the
checked construction succeeds. -/
theorem C9_zeros_witness :
    ((SymmetricMatrix.zeros ℚ 3).values.length = 3 * (3 + 1) / 2) ∧
    ((SymmetricMatrix.zeros ℚ 3).get (0, 2) = some 0) ∧
    ((SymmetricMatrix.zerosChecked ℚ 3).isSome ↔ 3 * (3 + 1) < 2 ^ 64) :=
  ⟨(C9_zeros ℚ 3).1,
   (C9_zeros ℚ 3).2.1 0 2 (by decide) (by decide),
   (C9_zeros ℚ 3).2.2.1⟩

/-! ## The sequential sweep, step by step -/

lemma tickSweep_succ (fexp : F → F) (T : F) (us : ℕ → F) (n : ℕ)
    (m : BoltzmannMachine F) (k : ℕ) :
    tickSweep fexp T us n m (k + 1) =
      tickStep fexp T us n (tickSweep fexp T us n m k) k := by
  unfold tickSweep
  rw [List.range_succ, List.foldl_append]
  rfl

lemma tickSweep_biases (fexp : F → F) (T : F) (us : ℕ → F) (n : ℕ)
    (m : BoltzmannMachine F) (k : ℕ) :
    (tickSweep fexp T us n m k).biases = m.biases := by
  induction k with
  | zero => rfl
  | succ k ih =>
    rw [tickSweep_succ]
    unfold tickStep
    exact ih

lemma tickSweep_coeffs (fexp : F → F) (T : F) (us : ℕ → F) (n : ℕ)
    (m : BoltzmannMachine F) (k : ℕ) :
    (tickSweep fexp T us n m k).coeffs = m.coeffs := by
  induction k with
  | zero => rfl
  | succ k ih =>
    rw [tickSweep_succ]
    unfold tickStep
    exact ih

lemma tickSweep_values_length (fexp : F → F) (T : F) (us : ℕ → F) (n : ℕ)
    (m : BoltzmannMachine F) (k : ℕ) :
    (tickSweep fexp T us n m k).values.length = m.values.length := by
  induction k with
  | zero => rfl
  | succ k ih =>
    rw [tickSweep_succ]
    unfold tickStep
    simp only [List.length_set]
    exact ih

lemma tickSweep_get_of_le (fexp : F → F) (T : F) (us : ℕ → F) (n : ℕ)
    (m : BoltzmannMachine F) (k i : ℕ) (h : k ≤ i) :
    (tickSweep fexp T us n m k).values[i]? = m.values[i]? := by
  induction k with
  | zero => rfl
  | succ k ih =>
    rw [tickSweep_succ]
    unfold tickStep
    simp only
    rw [List.getElem?_set_ne (by omega)]
    exact ih (by omega)

lemma tickSweep_get_stable (fexp : F → F) (T : F) (us : ℕ → F) (n : ℕ)
    (m : BoltzmannMachine F) (k i : ℕ) (h : i < k) :
    (tickSweep fexp T us n m k).values[i]? =
      (tickSweep fexp T us n m (i + 1)).values[i]? := by
  induction k with
  | zero => omega
  | succ k ih =>
    rcases Nat.lt_or_ge i k with h2 | h2
    · rw [tickSweep_succ]
      unfold tickStep
      simp only
      rw [List.getElem?_set_ne (by omega)]
      exact ih h2
    · have h3 : i = k := by omega
      subst h3
      rfl

lemma tickSweep_get_write (fexp : F → F) (T : F) (us : ℕ → F) (n : ℕ)
    (m : BoltzmannMachine F) (i : ℕ) (h : i < m.values.length) :
    (tickSweep fexp T us n m (i + 1)).values[i]? =
      some (acceptStep fexp T (us i)
        (localField (tickSweep fexp T us n m i) n i)) := by
  rw [tickSweep_succ]
  unfold tickStep
  simp only
  rw [List.getElem?_set_self]
  rw [tickSweep_values_length]
  exact h

lemma tick_all_eq_tickSweep (fexp : F → F) (T : F) (us : ℕ → F)
    (m : BoltzmannMachine F) :
    tick_all_sequential fexp T us m =
      tickSweep fexp T us m.values.length m m.values.length := rfl

lemma tick_all_get (fexp : F → F) (T : F) (us : ℕ → F)
    (m : BoltzmannMachine F) (i : ℕ) (h : i < m.values.length) :
    (tick_all_sequential fexp T us m).values[i]? =
      some (acceptStep fexp T (us i)
        (localField (tickSweep fexp T us m.values.length m i)
          m.values.length i)) := by
  rw [tick_all_eq_tickSweep, tickSweep_get_stable _ _ _ _ _ _ _ h,
    tickSweep_get_write _ _ _ _ _ _ h]

lemma foldl_add_range (g : ℕ → F) (b : F) (n : ℕ) :
    (List.range n).foldl (fun a j => a + g j) b =
      b + ∑ j in Finset.range n, g j := by
  induction n with
  | zero => simp
  | succ n ih =>
    rw [List.range_succ, List.foldl_append, ih, Finset.sum_range_succ]
    simp [add_assoc]

lemma localField_eq_sum (m : BoltzmannMachine F) (n i : ℕ) :
    localField m n i = m.biases.getD i 0 +
      ∑ j in (Finset.range n).erase i,
        m.values.getD j 0 * (m.coeffs.get (i, j)).getD 0 := by
  unfold localField
  have hfun :
      (fun (val : F) j =>
        if i ≠ j then val + m.values.getD j 0 * (m.coeffs.get (i, j)).getD 0
        else val) =
      fun (val : F) j =>
        val + (if i ≠ j then m.values.getD j 0 * (m.coeffs.get (i, j)).getD 0
               else 0) := by
    funext val j
    by_cases h : i ≠ j
    · rw [if_pos h, if_pos h]
    · rw [if_neg h, if_neg h, add_zero]
  rw [hfun, foldl_add_range]
  congr 1
  rw [← Finset.sum_filter]
  congr 1
  rw [Finset.filter_ne]

/-- C2: `tick_all_sequential` visits units in index order and feeds unit
`i` the local field `bias_i + Σ_{j ≠ i} values_j * weights(i, j)` taken
from the values array as it stands when unit `i` is processed: entries
below `i` are the already-updated (final) values of this pass, entries
above `i` are still the pre-pass values, and the diagonal term is
excluded. -/
theorem C2_sequential_local_field (fexp : F → F) (T : F) (us : ℕ → F)
    (m : BoltzmannMachine F) (i : ℕ) (h : i < m.values.length) :
    (tick_all_sequential fexp T us m).values[i]? =
      some (acceptStep fexp T (us i)
        (m.biases.getD i 0 +
          ∑ j in (Finset.range m.values.length).erase i,
            (if j < i then (tick_all_sequential fexp T us m).values.getD j 0
             else m.values.getD j 0) *
              (m.coeffs.get (i, j)).getD 0)) := by
  rw [tick_all_get fexp T us m i h]
  congr 2
  rw [localField_eq_sum,
    tickSweep_biases fexp T us m.values.length m i,
    tickSweep_coeffs fexp T us m.values.length m i]
  congr 1
  apply Finset.sum_congr rfl
  intro j hj
  have hjr : j < m.values.length := Finset.mem_range.mp (Finset.mem_of_mem_erase hj)
  have hji : j ≠ i := Finset.ne_of_mem_erase hj
  congr 1
  rw [List.getD_eq_getElem?_getD, List.getD_eq_getElem?_getD]
  by_cases hlt : j < i
  · rw [if_pos hlt,
      tickSweep_get_stable fexp T us m.values.length m i j hlt,
      tick_all_eq_tickSweep,
      tickSweep_get_stable fexp T us m.values.length m m.values.length j hjr]
  · rw [if_neg hlt,
      tickSweep_get_of_le fexp T us m.values.length m i j (by omega),
      List.getD_eq_getElem?_getD]

/-- C2 witness: in a 2-unit machine with zero couplings and biases, the
characterization applies to unit 1, whose updated value is 1. -/
theorem C2_sequential_local_field_witness :
    (tick_all_sequential (fun x => x) 1 (fun k => (1 : ℚ)/2)
      (BoltzmannMachine.new (SymmetricMatrix.zeros ℚ 2))).values[1]? =
      some 1 := by
  have h := C2_sequential_local_field (fun x => x) 1 (fun k => (1 : ℚ)/2)
    (BoltzmannMachine.new (SymmetricMatrix.zeros ℚ 2)) 1
    (by norm_num [BoltzmannMachine.new, SymmetricMatrix.zeros])
  rw [h]
  norm_num [BoltzmannMachine.new, SymmetricMatrix.zeros, acceptStep,
    SymmetricMatrix.get, Finset.sum_ite_eq, Finset.range_succ]

/-! ## The single-unit randomized update -/

lemma pickIndex_not_mem (avoid ps : List ℕ) (idx : ℕ)
    (h : pickIndex avoid ps = some idx) : idx ∉ avoid ∧ idx ∈ ps := by
  induction ps with
  | nil => cases h
  | cons p ps ih =>
    unfold pickIndex at h
    by_cases hp : p ∈ avoid
    · rw [if_pos hp] at h
      obtain ⟨h1, h2⟩ := ih h
      exact ⟨h1, List.mem_cons_of_mem _ h2⟩
    · rw [if_neg hp] at h
      cases h
      exact ⟨hp, List.mem_cons_self _ _⟩

lemma tick_one_random_some (fexp : F → F) (T u : F) (avoid ps : List ℕ)
    (m m2 : BoltzmannMachine F)
    (h : tick_one_random fexp T u avoid ps m = some m2) :
    m.biases.length ≠ 0 ∧ ∃ idx, pickIndex avoid ps = some idx ∧
      m2 = { m with
        values := m.values.set idx
          (acceptStep fexp T u (localField m m.biases.length idx)) } := by
  unfold tick_one_random at h
  by_cases hn : m.biases.length = 0
  · rw [if_pos hn] at h
    cases h
  · rw [if_neg hn] at h
    rcases hpick : pickIndex avoid ps with _ | idx
    · rw [hpick] at h
      cases h
    · rw [hpick] at h
      refine ⟨hn, idx, rfl, ?_⟩
      cases h
      rfl

/-! ## Claim C1: the acceptance rule -/

/-- C1 (amended): both update operations set the chosen unit to `1`
exactly when the drawn uniform sample is below
`p = 1 / (1 + exp(-field_i / T))` — the logistic function of
`field_i / T` — and to `0` otherwise. -/
theorem C1_acceptance_rule (fexp : F → F) (T : F) (us : ℕ → F) (u : F)
    (avoid ps : List ℕ) (m m2 : BoltzmannMachine F) :
    (∀ i : ℕ, i < m.values.length →
      (tick_all_sequential fexp T us m).values[i]? =
        some (if us i <
            (1 + fexp (-(localField (tickSweep fexp T us m.values.length m i)
                m.values.length i) / T))⁻¹
          then 1 else 0)) ∧
    (∀ idx : ℕ, tick_one_random fexp T u avoid ps m = some m2 →
      pickIndex avoid ps = some idx → idx < m.values.length →
      m2.values[idx]? =
        some (if u <
            (1 + fexp (-(localField m m.biases.length idx) / T))⁻¹
          then 1 else 0)) := by
  constructor
  · intro i h
    rw [tick_all_get fexp T us m i h]
    rfl
  · intro idx h hpick hlt
    obtain ⟨hn, idx2, hpick2, hm2⟩ :=
      tick_one_random_some fexp T u avoid ps m m2 h
    rw [hpick] at hpick2
    cases hpick2
    subst hm2
    simp only
    rw [List.getElem?_set_self hlt]
    rfl

/-- C1 witness: a 1-unit machine with zero bias at temperature 1 and
sample 1/2 takes the value 1 (the sample is below the probability 1/2 <
(1 + fexp 0)⁻¹ = 1 for the identity in place of exp). -/
theorem C1_acceptance_rule_witness :
    (tick_all_sequential (fun x => x) 1 (fun _ => (1 : ℚ)/2)
      (BoltzmannMachine.new (SymmetricMatrix.zeros ℚ 1))).values[0]? =
      some 1 := by
  have h := (C1_acceptance_rule (fun x => x) 1 (fun _ => (1 : ℚ)/2) 0 [] []
      (BoltzmannMachine.new (SymmetricMatrix.zeros ℚ 1))
      (BoltzmannMachine.new (SymmetricMatrix.zeros ℚ 1))).1 0
      (by norm_num [BoltzmannMachine.new, SymmetricMatrix.zeros])
  rw [h]
  norm_num [localField, tickSweep, BoltzmannMachine.new,
    SymmetricMatrix.zeros, List.range_succ]

/-- C1 counterexample: the claimed probability `1 / (1 + exp(field_i/T))`
(the logistic of `-field_i/T`) disagrees with the code.  On a one-unit
machine with bias 1 at temperature 1 and uniform sample 1/2, the code
sets the unit to 1, while the claimed rule would set it to 0. -/
theorem C1_claim_counterexample :
    (tick_all_sequential Real.exp 1 (fun _ => 1/2) oneUnitMachine).values[0]? ≠
      some (claimAcceptStep Real.exp 1 (1/2) (localField oneUnitMachine 1 0)) := by
  have hfield : localField oneUnitMachine 1 0 = 1 := by
    norm_num [localField, oneUnitMachine, List.range_succ]
  have hexpm : Real.exp (-1) < 1 := by
    rw [Real.exp_lt_one_iff]
    norm_num
  have hexppos : (0 : ℝ) < Real.exp (-1) := Real.exp_pos _
  have hpos : (0 : ℝ) < 1 + Real.exp (-1) := by linarith
  have hcondL : (1 : ℝ)/2 < (1 + Real.exp (-1))⁻¹ := by
    rw [inv_eq_one_div, lt_div_iff₀ hpos]
    linarith
  have hexp1 : (1 : ℝ) < Real.exp 1 := by
    rw [Real.one_lt_exp_iff]
    norm_num
  have hcondR : ¬ ((1 : ℝ)/2 < (1 + Real.exp 1)⁻¹) := by
    rw [not_lt, inv_eq_one_div, div_le_iff₀ (by linarith)]
    linarith
  have hL : (tick_all_sequential Real.exp 1 (fun _ => 1/2)
      oneUnitMachine).values[0]? = some 1 := by
    have h := tick_all_get Real.exp 1 (fun _ => (1:ℝ)/2) oneUnitMachine 0
      (by norm_num [oneUnitMachine])
    rw [h]
    have h0 : tickSweep Real.exp 1 (fun _ => (1:ℝ)/2)
        oneUnitMachine.values.length oneUnitMachine 0 = oneUnitMachine := rfl
    rw [h0]
    have h1 : oneUnitMachine.values.length = 1 := rfl
    rw [h1, hfield]
    norm_num [acceptStep, hcondL]
  have hR : claimAcceptStep Real.exp 1 ((1:ℝ)/2) (localField oneUnitMachine 1 0)
      = 0 := by
    rw [hfield]
    unfold claimAcceptStep
    norm_num [hcondR]
  rw [hL, hR]
  simp

/-! ## Claims C5, C6: the exclusion set -/

/-- C5: a succeeding `tick_one_random` call changes at most the one
selected unit (which is never in the exclusion list) and leaves every
other unit value, all biases and the weight matrix unchanged; iterating
calls with exclusion list `avoid` never mutates `values[i]` for any
`i ∈ avoid`. -/
theorem C5_exclusion_frame (fexp : F → F) (T : F) (avoid : List ℕ)
    (m m2 : BoltzmannMachine F) :
    (∀ u : F, ∀ ps : List ℕ, tick_one_random fexp T u avoid ps m = some m2 →
      m2.biases = m.biases ∧ m2.coeffs = m.coeffs ∧
      ∃ idx, idx ∉ avoid ∧
        ∀ j : ℕ, j ≠ idx → m2.values[j]? = m.values[j]?) ∧
    (∀ calls : List (F × List ℕ),
      tick_one_iter fexp T avoid calls m = some m2 →
      m2.biases = m.biases ∧ m2.coeffs = m.coeffs ∧
      ∀ i ∈ avoid, m2.values[i]? = m.values[i]?) := by
  have hsingle : ∀ (u : F) (ps : List ℕ) (ma mb : BoltzmannMachine F),
      tick_one_random fexp T u avoid ps ma = some mb →
      mb.biases = ma.biases ∧ mb.coeffs = ma.coeffs ∧
      ∃ idx, idx ∉ avoid ∧ ∀ j : ℕ, j ≠ idx → mb.values[j]? = ma.values[j]? := by
    intro u ps ma mb h
    obtain ⟨hn, idx, hpick, hmb⟩ :=
      tick_one_random_some fexp T u avoid ps ma mb h
    obtain ⟨hnotmem, _⟩ := pickIndex_not_mem avoid ps idx hpick
    subst hmb
    refine ⟨rfl, rfl, idx, hnotmem, ?_⟩
    intro j hj
    simp only
    rw [List.getElem?_set_ne (by omega)]
  constructor
  · intro u ps h
    exact hsingle u ps m m2 h
  · intro calls
    induction calls generalizing m with
    | nil =>
      intro h
      cases h
      exact ⟨rfl, rfl, fun i _ => rfl⟩
    | cons c rest ih =>
      intro h
      unfold tick_one_iter at h
      rcases hstep : tick_one_random fexp T c.1 avoid c.2 m with _ | mmid
      · rw [hstep] at h
        cases h
      · rw [hstep] at h
        obtain ⟨hb1, hc1, idx, hnm, hother⟩ := hsingle c.1 c.2 m mmid hstep
        obtain ⟨hb2, hc2, hav⟩ := ih mmid h
        refine ⟨hb2.trans hb1, hc2.trans hc1, ?_⟩
        intro i hi
        rw [hav i hi, hother i (by intro he; subst he; exact hnm hi)]

/-- C5 witness: on a 2-unit machine excluding unit 0, one call that flips
unit 1 to 0 leaves the excluded unit 0 untouched. -/
theorem C5_exclusion_frame_witness :
    ({ values := ([1, 0] : List ℚ), biases := [0, 0],
       coeffs := SymmetricMatrix.zeros ℚ 2 } : BoltzmannMachine ℚ).values[0]? =
    (BoltzmannMachine.new (SymmetricMatrix.zeros ℚ 2)).values[0]? := by
  have h := (C5_exclusion_frame (fun x => x) 1 [0]
      (BoltzmannMachine.new (SymmetricMatrix.zeros ℚ 2))
      { values := ([1, 0] : List ℚ), biases := [0, 0],
        coeffs := SymmetricMatrix.zeros ℚ 2 }).2 [(2, [0, 1])]
      (by norm_num [tick_one_iter, tick_one_random, pickIndex, acceptStep,
        localField, BoltzmannMachine.new, SymmetricMatrix.zeros,
        SymmetricMatrix.get, triOffset, order_tuple, List.range_succ,
        List.replicate, List.set])
  exact h.2.2 0 (by norm_num)

/-- C6: when the exclusion list contains every unit index of a non-empty
machine (and every random draw is a valid index below `n`, as
`Range::<usize>::new(0, n)` guarantees), `tick_one_random` accepts none of
its draws, however many are supplied: the rejection-sampling loop never
exits, so the call never terminates with a result — there is no failure
path and no no-op path. -/
theorem C6_full_exclusion_no_result (fexp : F → F) (T u : F)
    (avoid ps : List ℕ) (m : BoltzmannMachine F)
    (hcover : ∀ j : ℕ, j < m.biases.length → j ∈ avoid)
    (hps : ∀ p ∈ ps, p < m.biases.length) :
    tick_one_random fexp T u avoid ps m = none := by
  unfold tick_one_random
  by_cases hn : m.biases.length = 0
  · rw [if_pos hn]
  · rw [if_neg hn]
    have hpick : pickIndex avoid ps = none := by
      induction ps with
      | nil => rfl
      | cons p rest ih =>
        unfold pickIndex
        have hp : p ∈ avoid := hcover p (hps p (List.mem_cons_self _ _))
        rw [if_pos hp]
        exact ih (fun q hq => hps q (List.mem_cons_of_mem _ hq))
    rw [hpick]

/-- C6 witness: a 1-unit machine with `avoid = [0]` rejects the draws
`[0, 0, 0]` and produces no result. -/
theorem C6_full_exclusion_no_result_witness :
    tick_one_random (fun x => x) 1 0 [0] [0, 0, 0]
      (BoltzmannMachine.new (SymmetricMatrix.zeros ℚ 1)) = none :=
  C6_full_exclusion_no_result (fun x => x) 1 0 [0] [0, 0, 0]
    (BoltzmannMachine.new (SymmetricMatrix.zeros ℚ 1))
    (by decide) (by decide)

/-! ## Claims C7, C10: construction and the empty machine -/

/-- C7: `new` yields `weights.size()` units, all values 1 and all biases
0; `with_biases` fails exactly when the bias vector length differs from
`weights.size()`, and on success the initial values are all 1 and the
supplied biases are installed. -/
theorem C7_construction (F : Type) [Zero F] [One F] :
    (∀ c : SymmetricMatrix F,
      (BoltzmannMachine.new c).values = List.replicate c.size 1 ∧
      (BoltzmannMachine.new c).biases = List.replicate c.size 0 ∧
      (BoltzmannMachine.new c).coeffs = c) ∧
    (∀ (c : SymmetricMatrix F) (b : List F),
      b.length ≠ c.size → BoltzmannMachine.with_biases c b = none) ∧
    (∀ (c : SymmetricMatrix F) (b : List F),
      b.length = c.size → (BoltzmannMachine.with_biases c b).isSome) ∧
    (∀ (c : SymmetricMatrix F) (b : List F) (m2 : BoltzmannMachine F),
      BoltzmannMachine.with_biases c b = some m2 →
      b.length = c.size ∧ m2.values = List.replicate c.size 1 ∧
      m2.biases = b ∧ m2.coeffs = c) := by
  refine ⟨fun c => ⟨rfl, rfl, rfl⟩, ?_, ?_, ?_⟩
  · intro c b h
    unfold BoltzmannMachine.with_biases
    rw [if_neg h]
  · intro c b h
    unfold BoltzmannMachine.with_biases
    rw [if_pos h]
    rfl
  · intro c b m2 h
    unfold BoltzmannMachine.with_biases at h
    by_cases hb : b.length = c.size
    · rw [if_pos hb] at h
      cases h
      exact ⟨hb, rfl, rfl, rfl⟩
    · rw [if_neg hb] at h
      cases h

/-- C7 witness: with a `2 × 2` weight matrix, `new` initializes values to
`[1, 1]`, `with_biases` rejects a length-1 bias vector and accepts a
length-2 one. -/
theorem C7_construction_witness :
    (BoltzmannMachine.new (SymmetricMatrix.zeros ℚ 2)).values =
      List.replicate 2 1 ∧
    BoltzmannMachine.with_biases (SymmetricMatrix.zeros ℚ 2) [3] = none ∧
    (BoltzmannMachine.with_biases (SymmetricMatrix.zeros ℚ 2) [3, 4]).isSome :=
  ⟨((C7_construction ℚ).1 (SymmetricMatrix.zeros ℚ 2)).1,
   (C7_construction ℚ).2.1 (SymmetricMatrix.zeros ℚ 2) [3] (by decide),
   (C7_construction ℚ).2.2.1 (SymmetricMatrix.zeros ℚ 2) [3, 4] (by decide)⟩

/-- C10: on a machine built from a `0 × 0` weight matrix,
`tick_all_sequential` is a no-op that leaves the machine unchanged, while
`tick_one_random` produces no result even for an empty exclusion list —
`Range::<usize>::new(0, 0)` panics before any sampling happens. -/
theorem C10_zero_units (fexp : F → F) (T : F) (us : ℕ → F) (u : F)
    (avoid ps : List ℕ) (c : SymmetricMatrix F) (hc : c.size = 0) :
    tick_all_sequential fexp T us (BoltzmannMachine.new c) =
      BoltzmannMachine.new c ∧
    tick_one_random fexp T u avoid ps (BoltzmannMachine.new c) = none := by
  constructor
  · simp [tick_all_sequential, BoltzmannMachine.new, hc]
  · simp [tick_one_random, BoltzmannMachine.new, hc]

/-- C10 witness: the empty machine built from the `0 × 0` zero matrix. -/
theorem C10_zero_units_witness :
    tick_all_sequential (fun x => x) 1 (fun _ => (0 : ℚ))
      (BoltzmannMachine.new (SymmetricMatrix.zeros ℚ 0)) =
      BoltzmannMachine.new (SymmetricMatrix.zeros ℚ 0) ∧
    tick_one_random (fun x => x) 1 0 [] []
      (BoltzmannMachine.new (SymmetricMatrix.zeros ℚ 0)) = none :=
  C10_zero_units (fun x => x) 1 (fun _ => 0) 0 [] []
    (SymmetricMatrix.zeros ℚ 0) rfl
